import Mathlib

/-!
Verification of the grid keyboard-navigation helper and the
interactive-chart object-merging helper of this repository.

The grid navigation utility (`left`, `right`, `up`, `down`, `first`,
`last`) is documented in `packages/elements/src/grid-lite/index.ts`
(usage examples only); its implementation file is not part of the
source snapshot, so the operations below are modelled from the spec.
`mergeObjects` is embedded from
`packages/elements/src/interactive-chart/index.ts`.
-/

namespace GridNav

/-- Modelled from the spec: a Grid is an ordered sequence of ordered
sequences of a binary activity flag (1 = active, 0 = inactive); rows may
have different lengths. -/
abbrev Grid := List (List Nat)

/-- Modelled from the spec: a Cell is a pair (columnIndex, rowIndex),
zero-based. -/
structure Cell where
  column : Nat
  row : Nat
deriving DecidableEq, Repr

/-- Modelled from the spec: the row of the grid at index `r`; a missing
row is treated as empty. -/
def rowOf (grid : Grid) (r : Nat) : List Nat := grid.getD r []

/-- Modelled from the spec: the activity flag at column `c` of row `r`;
any out-of-range access is treated as inactive (0). -/
def flagAt (grid : Grid) (c r : Nat) : Nat := (rowOf grid r).getD c 0

/-- Modelled from the spec: a position is active when its flag is 1. -/
def isActive (grid : Grid) (c r : Nat) : Bool := flagAt grid c r == 1

/-- Modelled from the spec: scan columns `c, c-1, ..., 0` of row `r`
and return the first active column found. -/
def scanLeft (grid : Grid) (r : Nat) : Nat → Option Nat
  | 0 => if isActive grid 0 r then some 0 else none
  | c + 1 => if isActive grid (c + 1) r then some (c + 1) else scanLeft grid r c

/-- Modelled from the spec: scan columns `c, c+1, ...` of row `r` for
`fuel` steps and return the first active column found. -/
def scanRight (grid : Grid) (r c : Nat) : Nat → Option Nat
  | 0 => none
  | fuel + 1 => if isActive grid c r then some c else scanRight grid r (c + 1) fuel

/-- Modelled from the spec: the last (largest-column) active column of
row `r`, scanning from the last column of that row. -/
def lastActiveInRow (grid : Grid) (r : Nat) : Option Nat :=
  scanLeft grid r ((rowOf grid r).length - 1)

/-- Modelled from the spec: the first active column of row `r` at or
after column `c`. -/
def firstActiveInRowFrom (grid : Grid) (r c : Nat) : Option Nat :=
  scanRight grid r c ((rowOf grid r).length - c)

/-- Modelled from the spec: wrap a leftward search over the rows
strictly above row `r` (nearest row first), searching each row from its
last column. -/
def leftWrap (grid : Grid) : Nat → Option Cell
  | 0 => none
  | r + 1 =>
    match lastActiveInRow grid r with
    | some c => some ⟨c, r⟩
    | none => leftWrap grid r

/-- Modelled from the spec: wrap a rightward search over rows
`r, r+1, ...` for `fuel` rows, searching each row from column 0. -/
def rightRows (grid : Grid) : Nat → Nat → Option Cell
  | _, 0 => none
  | r, fuel + 1 =>
    match firstActiveInRowFrom grid r 0 with
    | some c => some ⟨c, r⟩
    | none => rightRows grid (r + 1) fuel

/-- Modelled from the spec: `left(grid, cell)` scans columns from
`cell.column - 1` down to 0 on `cell.row`, returning the first active
cell found; if none, it wraps to preceding rows, searching each from its
last column, and returns the absent value when all are exhausted. -/
def left (grid : Grid) (cell : Cell) : Option Cell :=
  match cell.column with
  | 0 => leftWrap grid cell.row
  | c + 1 =>
    match scanLeft grid cell.row c with
    | some c0 => some ⟨c0, cell.row⟩
    | none => leftWrap grid cell.row

/-- Modelled from the spec: `right(grid, cell)` is symmetric to `left`,
scanning forward along `cell.row` from `cell.column + 1` and wrapping to
following rows. -/
def right (grid : Grid) (cell : Cell) : Option Cell :=
  match firstActiveInRowFrom grid cell.row (cell.column + 1) with
  | some c0 => some ⟨c0, cell.row⟩
  | none => rightRows grid (cell.row + 1) (grid.length - (cell.row + 1))

/-- Modelled from the spec: the list of active columns of row `r`. -/
def activeCols (grid : Grid) (r : Nat) : List Nat :=
  (List.range (rowOf grid r).length).filter (fun c => isActive grid c r)

/-- Modelled from the spec: `a` is strictly nearer to `target` than `b`,
ties broken by preferring the lower column index. -/
def isBetter (target a b : Nat) : Bool :=
  Nat.dist target a < Nat.dist target b ||
    (Nat.dist target a == Nat.dist target b && a < b)

/-- Modelled from the spec: choose from a list of columns the one
nearest to `target` (smaller distance first, then lower index). -/
def chooseNearest (target : Nat) : List Nat → Option Nat
  | [] => none
  | c :: rest =>
    match chooseNearest target rest with
    | none => some c
    | some b => if isBetter target c b then some c else some b

/-- Modelled from the spec: on a candidate row, take the same column
when it is active, otherwise search outward along the row for the
nearest active cell (smaller column distance, then lower column
index). -/
def nearestActiveInRow (grid : Grid) (r target : Nat) : Option Nat :=
  if isActive grid target r then some target
  else chooseNearest target (activeCols grid r)

/-- Modelled from the spec: scan the rows strictly above row `r`
(nearest first) for the nearest active cell to column `target`. -/
def upRows (grid : Grid) (target : Nat) : Nat → Option Cell
  | 0 => none
  | r + 1 =>
    match nearestActiveInRow grid r target with
    | some c => some ⟨c, r⟩
    | none => upRows grid target r

/-- Modelled from the spec: scan rows `r, r+1, ...` for `fuel` rows for
the nearest active cell to column `target`. -/
def downRows (grid : Grid) (target : Nat) : Nat → Nat → Option Cell
  | _, 0 => none
  | r, fuel + 1 =>
    match nearestActiveInRow grid r target with
    | some c => some ⟨c, r⟩
    | none => downRows grid target (r + 1) fuel

/-- Modelled from the spec: `up(grid, cell)` scans rows above `cell.row`
(row index decreasing toward 0), taking the same column when active and
otherwise the nearest active cell of the candidate row. -/
def up (grid : Grid) (cell : Cell) : Option Cell :=
  upRows grid cell.column cell.row

/-- Modelled from the spec: `down(grid, cell)` is symmetric to `up`,
scanning rows below `cell.row`. -/
def down (grid : Grid) (cell : Cell) : Option Cell :=
  downRows grid cell.column (cell.row + 1) (grid.length - (cell.row + 1))

/-- Modelled from the spec: `first(grid)` returns the active cell first
in row-major scan order. -/
def first (grid : Grid) : Option Cell := rightRows grid 0 grid.length

/-- Modelled from the spec: `last(grid)` returns the active cell last in
row-major scan order. -/
def last (grid : Grid) : Option Cell := leftWrap grid grid.length

/-- The worked example grid of the spec. -/
def exGrid : Grid := [[0, 0, 1, 1], [1, 1, 0, 1], [1, 0, 1, 1], [1, 1, 0, 1]]

/-- Row-major strict order on cells. -/
def rmLt (a b : Cell) : Prop :=
  a.row < b.row ∨ (a.row = b.row ∧ a.column < b.column)

/-- Row-major reflexive order on cells. -/
def rmLe (a b : Cell) : Prop :=
  a.row < b.row ∨ (a.row = b.row ∧ a.column ≤ b.column)

end GridNav

namespace InteractiveChart

/-- A JavaScript-style value as handled by `mergeObjects` in
`packages/elements/src/interactive-chart/index.ts`: either a plain
object literal (an ordered association of string keys to values, with
unique keys, prototype Object.prototype and no own callable
properties) or any other value, collapsed to `prim`.
The source detects plain objects by
`value && value.toString() === '[object Object]'`; every non-object
value (numbers, strings, null, arrays, functions) fails that test and
is modelled as `prim`. -/
inductive JVal where
  | prim : Int → JVal
  | obj : List (String × JVal) → JVal

/-- Whether a value is an object, the shape on which the source's
plain-object test returns true when it does not throw. -/
def JVal.isObj : JVal → Bool
  | .obj _ => true
  | .prim _ => false

/-- Own-property membership on the fields of an object: the keys listed
by `Object.keys`. JavaScript's `in` operator additionally sees inherited
properties; that is `jsIn` below. -/
def hasKey : List (String × JVal) → String → Bool
  | [], _ => false
  | p :: rest, k => if p.1 = k then true else hasKey rest k

/-- The own property names of Object.prototype, which JavaScript's `in`
operator finds on every plain object through the prototype chain. -/
def protoKeys : List String :=
  ["constructor", "hasOwnProperty", "isPrototypeOf", "propertyIsEnumerable",
   "toLocaleString", "toString", "valueOf", "__proto__", "__defineGetter__",
   "__defineSetter__", "__lookupGetter__", "__lookupSetter__"]

/-- JavaScript `key in a` on a plain object `a`: true for an own key and
for every property inherited from Object.prototype. -/
def jsIn (l : List (String × JVal)) (k : String) : Bool :=
  hasKey l k || protoKeys.contains k

/-- Own-property read `a[key]` on the fields of an object; the inherited
case is handled explicitly where it occurs in `mergeObjects`. -/
def getKey : List (String × JVal) → String → Option JVal
  | [], _ => none
  | p :: rest, k => if p.1 = k then some p.2 else getKey rest k

/-- JavaScript property write `a[key] = v`: replace the binding when the
key is present, append it otherwise. -/
def setKey : List (String × JVal) → String → JVal → List (String × JVal)
  | [], k, v => [(k, v)]
  | p :: rest, k, v => if p.1 = k then (k, v) :: rest else p :: setKey rest k v

/-- `InteractiveChart.mergeObjects(a, b, force)` from
`packages/elements/src/interactive-chart/index.ts`, lines 1112-1127.
For each key of `b` in order the source first computes
`isObject = value && value.toString() === '[object Object]'`; when the
value is an object owning a `toString` key, that own value shadows
Object.prototype.toString and is not callable for any value
representable by `JVal`, so `value.toString()` throws a TypeError,
modelled by `.error`. When `!(key in a) || (!isObject && force)` the
source assigns `a[key] = b[key]`; `key in a` consults the prototype
chain and is modelled by `jsIn`. When `isObject`, the source recurses
into `(a[key], b[key])`; if `key` is only inherited, `a[key]` is a
built-in member of Object.prototype (a function, or Object.prototype
itself for `__proto__`) that lies outside the value domain modelled by
`JVal`, and whose merge mutates shared built-ins and can itself throw
deeper in, so the model stops with a distinguished `.error` there
rather than guess an outcome (JavaScript itself does not necessarily
throw at that point; the error marks the model's domain boundary, and
every theorem below is conditioned on a merge that stays inside it).
When the first argument is not an object, `key in a` throws as soon as
`b` has a key, after the `toString` test of that key's value, which
may throw first. The source's `record` parameter only skips objects
already visited by reference, which cannot occur for the tree-shaped
(alias-free, acyclic) values representable here, so it is omitted. -/
def mergeObjects (force : Bool) : JVal → List (String × JVal) → Except String JVal
  | a, [] => .ok a
  | .prim _, (_, .obj bf) :: _ =>
    if hasKey bf "toString" then .error "TypeError: value.toString is not a function"
    else .error "TypeError: cannot use in operator on a non-object"
  | .prim _, (_, .prim _) :: _ =>
    .error "TypeError: cannot use in operator on a non-object"
  | .obj af, (key, .prim v) :: rest =>
    let a1 := if !jsIn af key || force then setKey af key (.prim v) else af
    mergeObjects force (.obj a1) rest
  | .obj af, (key, .obj bf) :: rest =>
    if hasKey bf "toString" then .error "TypeError: value.toString is not a function"
    else
      let a1 := if jsIn af key then af else setKey af key (.obj bf)
      match getKey a1 key with
      | none => .error "unmodelled: recursion into an inherited Object.prototype member"
      | some av =>
        match mergeObjects force av bf with
        | .error e => .error e
        | .ok m => mergeObjects force (.obj (setKey a1 key m)) rest

end InteractiveChart

namespace GridNav

theorem not_active_of_col_ge {grid : Grid} {c r : Nat}
    (h : (rowOf grid r).length ≤ c) : isActive grid c r = false := by
  have h0 : flagAt grid c r = 0 := List.getD_eq_default _ _ h
  simp [isActive, h0]

theorem not_active_of_row_ge {grid : Grid} {c r : Nat}
    (h : grid.length ≤ r) : isActive grid c r = false := by
  have hrow : rowOf grid r = [] := List.getD_eq_default _ _ h
  simp [isActive, flagAt, hrow]

theorem isActive_bounds {grid : Grid} {c r : Nat} (h : isActive grid c r = true) :
    r < grid.length ∧ c < (rowOf grid r).length := by
  constructor
  · by_contra hr
    simp [not_active_of_row_ge (Nat.le_of_not_lt hr)] at h
  · by_contra hc
    simp [not_active_of_col_ge (Nat.le_of_not_lt hc)] at h

theorem active_mem {grid : Grid} {c r : Nat} (h : isActive grid c r = true) :
    rowOf grid r ∈ grid ∧ (1 : Nat) ∈ rowOf grid r := by
  obtain ⟨hr, hc⟩ := isActive_bounds h
  have hflag : flagAt grid c r = 1 := by
    have := h
    simpa [isActive] using this
  constructor
  · have : rowOf grid r = grid[r] := List.getD_eq_getElem grid [] hr
    rw [this]
    exact List.getElem_mem hr
  · have hv : (rowOf grid r).getD c 0 = (rowOf grid r)[c] :=
      List.getD_eq_getElem _ 0 hc
    have : (rowOf grid r)[c] = 1 := by rw [← hv]; exact hflag
    rw [← this]
    exact List.getElem_mem hc

theorem scanLeft_some {grid : Grid} {r : Nat} :
    ∀ {c c0 : Nat}, scanLeft grid r c = some c0 →
      isActive grid c0 r = true ∧ c0 ≤ c ∧
        ∀ c', c0 < c' → c' ≤ c → isActive grid c' r = false := by
  intro c
  induction c with
  | zero =>
    intro c0 h
    by_cases ha : isActive grid 0 r = true
    · simp [scanLeft, ha] at h
      subst h
      exact ⟨ha, Nat.le_refl 0, fun c' h1 h2 => absurd (Nat.lt_of_lt_of_le h1 h2) (Nat.lt_irrefl _)⟩
    · simp [scanLeft, ha] at h
  | succ c ih =>
    intro c0 h
    by_cases ha : isActive grid (c + 1) r = true
    · simp [scanLeft, ha] at h
      subst h
      exact ⟨ha, Nat.le_refl _, fun c' h1 h2 => absurd (Nat.lt_of_lt_of_le h1 h2) (Nat.lt_irrefl _)⟩
    · simp only [scanLeft, ha, if_neg] at h
      have h2 : scanLeft grid r c = some c0 := by
        simpa [Bool.not_eq_true] using h
      obtain ⟨hact, hle, hnone⟩ := ih h2
      refine ⟨hact, Nat.le_succ_of_le hle, fun c' h1 hle' => ?_⟩
      rcases Nat.lt_or_ge c' (c + 1) with hlt | hge
      · exact hnone c' h1 (Nat.lt_succ_iff.mp hlt)
      · have : c' = c + 1 := Nat.le_antisymm hle' hge
        subst this
        exact Bool.not_eq_true _ ▸ (by simpa using ha)

theorem scanLeft_none {grid : Grid} {r : Nat} :
    ∀ {c : Nat}, scanLeft grid r c = none →
      ∀ c', c' ≤ c → isActive grid c' r = false := by
  intro c
  induction c with
  | zero =>
    intro h c' hc'
    interval_cases c'
    by_cases ha : isActive grid 0 r = true
    · simp [scanLeft, ha] at h
    · simpa using ha
  | succ c ih =>
    intro h c' hc'
    by_cases ha : isActive grid (c + 1) r = true
    · simp [scanLeft, ha] at h
    · rcases Nat.lt_or_ge c' (c + 1) with hlt | hge
      · have h2 : scanLeft grid r c = none := by
          simpa [scanLeft, ha] using h
        exact ih h2 c' (Nat.lt_succ_iff.mp hlt)
      · have : c' = c + 1 := Nat.le_antisymm hc' hge
        subst this
        simpa using ha

theorem lastActiveInRow_some {grid : Grid} {r c0 : Nat}
    (h : lastActiveInRow grid r = some c0) :
    isActive grid c0 r = true ∧ ∀ c', c0 < c' → isActive grid c' r = false := by
  obtain ⟨hact, hle, hnone⟩ := scanLeft_some h
  refine ⟨hact, fun c' h1 => ?_⟩
  rcases le_or_lt c' ((rowOf grid r).length - 1) with hle' | hgt
  · exact hnone c' h1 hle'
  · exact not_active_of_col_ge (by omega)

theorem lastActiveInRow_none {grid : Grid} {r : Nat}
    (h : lastActiveInRow grid r = none) :
    ∀ c', isActive grid c' r = false := by
  intro c'
  rcases le_or_lt c' ((rowOf grid r).length - 1) with hle | hgt
  · exact scanLeft_none h c' hle
  · exact not_active_of_col_ge (by omega)

theorem leftWrap_some {grid : Grid} :
    ∀ {r : Nat} {d : Cell}, leftWrap grid r = some d →
      d.row < r ∧ isActive grid d.column d.row = true ∧
        (∀ c', d.column < c' → isActive grid c' d.row = false) ∧
        (∀ r', d.row < r' → r' < r → ∀ c', isActive grid c' r' = false) := by
  intro r
  induction r with
  | zero => intro d h; simp [leftWrap] at h
  | succ r ih =>
    intro d h
    rw [leftWrap] at h
    cases hlast : lastActiveInRow grid r with
    | some c =>
      rw [hlast] at h
      obtain ⟨hact, hmax⟩ := lastActiveInRow_some hlast
      cases h
      exact ⟨Nat.lt_succ_self r, hact, hmax, fun r' h1 h2 => absurd (Nat.lt_of_lt_of_le h1 (Nat.lt_succ_iff.mp h2)) (Nat.lt_irrefl _)⟩
    | none =>
      rw [hlast] at h
      obtain ⟨hrow, hact, hmax, hbetween⟩ := ih h
      refine ⟨Nat.lt_succ_of_lt hrow, hact, hmax, fun r' h1 h2 => ?_⟩
      rcases Nat.lt_or_ge r' r with hlt | hge
      · exact hbetween r' h1 hlt
      · have : r' = r := Nat.le_antisymm (Nat.lt_succ_iff.mp h2) hge
        subst this
        exact lastActiveInRow_none hlast

theorem leftWrap_none {grid : Grid} :
    ∀ {r : Nat}, leftWrap grid r = none →
      ∀ r', r' < r → ∀ c', isActive grid c' r' = false := by
  intro r
  induction r with
  | zero => intro _ r' h'; exact absurd h' (Nat.not_lt_zero r')
  | succ r ih =>
    intro h r' h'
    rw [leftWrap] at h
    cases hlast : lastActiveInRow grid r with
    | some c => rw [hlast] at h; exact absurd h (by simp)
    | none =>
      rw [hlast] at h
      rcases Nat.lt_or_ge r' r with hlt | hge
      · exact ih h r' hlt
      · have : r' = r := Nat.le_antisymm (Nat.lt_succ_iff.mp h') hge
        subst this
        exact lastActiveInRow_none hlast

theorem left_some {grid : Grid} {cell d : Cell} (h : left grid cell = some d) :
    isActive grid d.column d.row = true ∧ rmLt d cell ∧
      ∀ e : Cell, isActive grid e.column e.row = true → rmLt e cell → rmLe e d := by
  rw [left] at h
  split at h
  · rename_i hcol
    obtain ⟨hrow, hact, hmax, hbetween⟩ := leftWrap_some h
    refine ⟨hact, Or.inl hrow, fun e he hlt => ?_⟩
    rcases hlt with hl | ⟨heq, hclt⟩
    · rcases Nat.lt_trichotomy e.row d.row with h1 | h1 | h1
      · exact Or.inl h1
      · refine Or.inr ⟨h1, ?_⟩
        by_contra hgt
        have := hmax e.column (by omega)
        rw [h1] at he
        simp [this] at he
      · have := hbetween e.row h1 hl e.column
        simp [this] at he
    · omega
  · rename_i c hcol
    cases hscan : scanLeft grid cell.row c with
    | some c0 =>
      rw [hscan] at h
      obtain ⟨hact, hle, hnone⟩ := scanLeft_some hscan
      have hd := (Option.some.inj h).symm
      have hdc : d.column = c0 := by rw [hd]
      have hdr : d.row = cell.row := by rw [hd]
      refine ⟨by rw [hdc, hdr]; exact hact, Or.inr ⟨hdr, by omega⟩, fun e he hlt => ?_⟩
      rcases hlt with hl | ⟨heq, hclt⟩
      · exact Or.inl (by omega)
      · refine Or.inr ⟨by omega, ?_⟩
        by_contra hgt
        have := hnone e.column (by omega) (by omega)
        rw [heq] at he
        simp [this] at he
    | none =>
      rw [hscan] at h
      obtain ⟨hrow, hact, hmax, hbetween⟩ := leftWrap_some h
      refine ⟨hact, Or.inl hrow, fun e he hlt => ?_⟩
      rcases hlt with hl | ⟨heq, hclt⟩
      · rcases Nat.lt_trichotomy e.row d.row with h1 | h1 | h1
        · exact Or.inl h1
        · refine Or.inr ⟨h1, ?_⟩
          by_contra hgt
          have := hmax e.column (by omega)
          rw [h1] at he
          simp [this] at he
        · have := hbetween e.row h1 hl e.column
          simp [this] at he
      · have := scanLeft_none hscan e.column (by omega)
        rw [heq] at he
        simp [this] at he

theorem scanRight_some {grid : Grid} {r : Nat} :
    ∀ {fuel c c0 : Nat}, scanRight grid r c fuel = some c0 →
      isActive grid c0 r = true ∧ c ≤ c0 ∧ c0 < c + fuel ∧
        ∀ c', c ≤ c' → c' < c0 → isActive grid c' r = false := by
  intro fuel
  induction fuel with
  | zero => intro c c0 h; simp [scanRight] at h
  | succ fuel ih =>
    intro c c0 h
    by_cases ha : isActive grid c r = true
    · simp [scanRight, ha] at h
      subst h
      exact ⟨ha, Nat.le_refl _, by omega, fun c' h1 h2 => by omega⟩
    · have h2 : scanRight grid r (c + 1) fuel = some c0 := by
        simpa [scanRight, ha] using h
      obtain ⟨hact, hle, hlt, hnone⟩ := ih h2
      refine ⟨hact, by omega, by omega, fun c' h1 h3 => ?_⟩
      rcases Nat.lt_or_ge c' (c + 1) with hlt' | hge
      · have : c' = c := by omega
        subst this
        simpa using ha
      · exact hnone c' hge h3

theorem scanRight_none {grid : Grid} {r : Nat} :
    ∀ {fuel c : Nat}, scanRight grid r c fuel = none →
      ∀ c', c ≤ c' → c' < c + fuel → isActive grid c' r = false := by
  intro fuel
  induction fuel with
  | zero => intro c h c' h1 h2; omega
  | succ fuel ih =>
    intro c h c' h1 h2
    by_cases ha : isActive grid c r = true
    · simp [scanRight, ha] at h
    · have h3 : scanRight grid r (c + 1) fuel = none := by
        simpa [scanRight, ha] using h
      rcases Nat.lt_or_ge c' (c + 1) with hlt | hge
      · have : c' = c := by omega
        subst this
        simpa using ha
      · exact ih h3 c' hge (by omega)

theorem firstActiveInRowFrom_some {grid : Grid} {r c c0 : Nat}
    (h : firstActiveInRowFrom grid r c = some c0) :
    isActive grid c0 r = true ∧ c ≤ c0 ∧
      ∀ c', c ≤ c' → c' < c0 → isActive grid c' r = false := by
  obtain ⟨hact, hle, hlt, hnone⟩ := scanRight_some h
  exact ⟨hact, hle, hnone⟩

theorem firstActiveInRowFrom_none {grid : Grid} {r c : Nat}
    (h : firstActiveInRowFrom grid r c = none) :
    ∀ c', c ≤ c' → isActive grid c' r = false := by
  intro c' h1
  rcases Nat.lt_or_ge c' (rowOf grid r).length with hlt | hge
  · exact scanRight_none h c' h1 (by omega)
  · exact not_active_of_col_ge hge

theorem rightRows_some {grid : Grid} :
    ∀ {fuel r : Nat} {d : Cell}, rightRows grid r fuel = some d →
      r ≤ d.row ∧ d.row < r + fuel ∧ isActive grid d.column d.row = true ∧
        (∀ c', c' < d.column → isActive grid c' d.row = false) ∧
        (∀ r', r ≤ r' → r' < d.row → ∀ c', isActive grid c' r' = false) := by
  intro fuel
  induction fuel with
  | zero => intro r d h; simp [rightRows] at h
  | succ fuel ih =>
    intro r d h
    rw [rightRows] at h
    cases hfirst : firstActiveInRowFrom grid r 0 with
    | some c =>
      rw [hfirst] at h
      obtain ⟨hact, _, hnone⟩ := firstActiveInRowFrom_some hfirst
      have hd := (Option.some.inj h).symm
      have hdc : d.column = c := by rw [hd]
      have hdr : d.row = r := by rw [hd]
      refine ⟨by omega, by omega, by rw [hdc, hdr]; exact hact, ?_, ?_⟩
      · intro c' hc'
        rw [hdr]
        exact hnone c' (Nat.zero_le c') (by omega)
      · intro r' h1 h2 c'
        omega
    | none =>
      rw [hfirst] at h
      obtain ⟨hge, hlt, hact, hmin, hbetween⟩ := ih h
      refine ⟨by omega, by omega, hact, hmin, fun r' h1 h2 c' => ?_⟩
      rcases Nat.lt_or_ge r' (r + 1) with hlt' | hge'
      · have : r' = r := by omega
        subst this
        exact firstActiveInRowFrom_none hfirst c' (Nat.zero_le c')
      · exact hbetween r' hge' h2 c'

theorem rightRows_none {grid : Grid} :
    ∀ {fuel r : Nat}, rightRows grid r fuel = none →
      ∀ r', r ≤ r' → r' < r + fuel → ∀ c', isActive grid c' r' = false := by
  intro fuel
  induction fuel with
  | zero => intro r h r' h1 h2; omega
  | succ fuel ih =>
    intro r h r' h1 h2 c'
    rw [rightRows] at h
    cases hfirst : firstActiveInRowFrom grid r 0 with
    | some c => rw [hfirst] at h; exact absurd h (by simp)
    | none =>
      rw [hfirst] at h
      rcases Nat.lt_or_ge r' (r + 1) with hlt | hge
      · have : r' = r := by omega
        subst this
        exact firstActiveInRowFrom_none hfirst c' (Nat.zero_le c')
      · exact ih h r' hge (by omega) c'

theorem right_some {grid : Grid} {cell d : Cell} (h : right grid cell = some d) :
    isActive grid d.column d.row = true ∧ rmLt cell d ∧
      ∀ e : Cell, isActive grid e.column e.row = true → rmLt cell e → rmLe d e := by
  rw [right] at h
  cases hfirst : firstActiveInRowFrom grid cell.row (cell.column + 1) with
  | some c0 =>
    rw [hfirst] at h
    obtain ⟨hact, hle, hnone⟩ := firstActiveInRowFrom_some hfirst
    have hd := (Option.some.inj h).symm
    have hdc : d.column = c0 := by rw [hd]
    have hdr : d.row = cell.row := by rw [hd]
    refine ⟨by rw [hdc, hdr]; exact hact, Or.inr ⟨hdr.symm, by omega⟩, fun e he hlt => ?_⟩
    rcases hlt with hl | ⟨heq, hclt⟩
    · rcases Nat.lt_trichotomy d.row e.row with h1 | h1 | h1
      · exact Or.inl h1
      · omega
      · omega
    · rcases Nat.lt_or_ge e.column d.column with h1 | h1
      · have := hnone e.column (by omega) (by omega)
        rw [← heq] at he
        simp [this] at he
      · exact Or.inr ⟨by omega, h1⟩
  | none =>
    rw [hfirst] at h
    obtain ⟨hge, hlt, hact, hmin, hbetween⟩ := rightRows_some h
    refine ⟨hact, Or.inl (by omega), fun e he hlt' => ?_⟩
    rcases Nat.lt_trichotomy d.row e.row with h1 | h1 | h1
    · exact Or.inl h1
    · refine Or.inr ⟨h1, ?_⟩
      by_contra hgt
      have := hmin e.column (by omega)
      rw [← h1] at he
      simp [this] at he
    · rcases hlt' with hl | ⟨heq, hclt⟩
      · have := hbetween e.row (by omega) h1 e.column
        simp [this] at he
      · have := firstActiveInRowFrom_none hfirst e.column (by omega)
        rw [heq] at this
        simp [this] at he

theorem right_none {grid : Grid} {cell : Cell} (h : right grid cell = none) :
    ∀ e : Cell, isActive grid e.column e.row = true → ¬rmLt cell e := by
  rw [right] at h
  intro e he hlt
  cases hfirst : firstActiveInRowFrom grid cell.row (cell.column + 1) with
  | some c0 => rw [hfirst] at h; exact absurd h (by simp)
  | none =>
    rw [hfirst] at h
    have hbound := isActive_bounds he
    rcases hlt with hl | ⟨heq, hclt⟩
    · have := rightRows_none h e.row (by omega) (by omega) e.column
      simp [this] at he
    · have := firstActiveInRowFrom_none hfirst e.column (by omega)
      rw [heq] at this
      simp [this] at he

theorem first_some {grid : Grid} {f : Cell} (h : first grid = some f) :
    isActive grid f.column f.row = true ∧
      ∀ e : Cell, isActive grid e.column e.row = true → rmLe f e := by
  rw [first] at h
  obtain ⟨hge, hlt, hact, hmin, hbetween⟩ := rightRows_some h
  refine ⟨hact, fun e he => ?_⟩
  rcases Nat.lt_trichotomy f.row e.row with h1 | h1 | h1
  · exact Or.inl h1
  · refine Or.inr ⟨h1, ?_⟩
    by_contra hgt
    have := hmin e.column (by omega)
    rw [← h1] at he
    simp [this] at he
  · have := hbetween e.row (Nat.zero_le _) h1 e.column
    simp [this] at he

theorem first_none {grid : Grid} (h : first grid = none) :
    ∀ e : Cell, isActive grid e.column e.row = true → False := by
  intro e he
  have hbound := isActive_bounds he
  have := rightRows_none h e.row (Nat.zero_le _) (by omega) e.column
  simp [this] at he

theorem last_some {grid : Grid} {l : Cell} (h : last grid = some l) :
    isActive grid l.column l.row = true ∧
      ∀ e : Cell, isActive grid e.column e.row = true → rmLe e l := by
  rw [last] at h
  obtain ⟨hrow, hact, hmax, hbetween⟩ := leftWrap_some h
  refine ⟨hact, fun e he => ?_⟩
  have hbound := isActive_bounds he
  rcases Nat.lt_trichotomy e.row l.row with h1 | h1 | h1
  · exact Or.inl h1
  · refine Or.inr ⟨h1, ?_⟩
    by_contra hgt
    have := hmax e.column (by omega)
    rw [h1] at he
    simp [this] at he
  · have := hbetween e.row h1 (by omega) e.column
    simp [this] at he

theorem last_none {grid : Grid} (h : last grid = none) :
    ∀ e : Cell, isActive grid e.column e.row = true → False := by
  intro e he
  have hbound := isActive_bounds he
  have := leftWrap_none h e.row (by omega) e.column
  simp [this] at he

theorem chooseNearest_none {target : Nat} :
    ∀ {l : List Nat}, chooseNearest target l = none → l = [] := by
  intro l
  cases l with
  | nil => intro _; rfl
  | cons a rest =>
    intro h
    rw [chooseNearest] at h
    split at h
    · exact absurd h (by simp)
    · split at h <;> exact absurd h (by simp)

theorem chooseNearest_spec {target : Nat} :
    ∀ {l : List Nat} {c : Nat}, chooseNearest target l = some c →
      c ∈ l ∧ ∀ b ∈ l, Nat.dist target c < Nat.dist target b ∨
        (Nat.dist target c = Nat.dist target b ∧ c ≤ b) := by
  intro l
  induction l with
  | nil => intro c h; simp [chooseNearest] at h
  | cons a rest ih =>
    intro c h
    rw [chooseNearest] at h
    split at h
    · rename_i hr
      have hac : a = c := Option.some.inj h
      have hrest : rest = [] := chooseNearest_none hr
      subst hrest
      refine ⟨by simp [hac], fun b hbmem => ?_⟩
      have hba : b = a := by simpa using hbmem
      subst hba
      exact Or.inr ⟨by rw [hac], by omega⟩
    · rename_i b0 hr
      obtain ⟨hmem0, hmin0⟩ := ih hr
      by_cases hb : isBetter target a b0 = true
      · rw [if_pos hb] at h
        have hac : a = c := Option.some.inj h
        have hbetter : Nat.dist target a < Nat.dist target b0 ∨
            (Nat.dist target a = Nat.dist target b0 ∧ a < b0) := by
          have h1 := hb
          simp only [isBetter, Bool.or_eq_true, Bool.and_eq_true, decide_eq_true_eq,
            beq_iff_eq] at h1
          exact h1
        refine ⟨by simp [hac], fun b hbmem => ?_⟩
        rcases List.mem_cons.mp hbmem with hba | hbr
        · exact Or.inr ⟨by rw [← hac, hba], by omega⟩
        · have hmin := hmin0 b hbr
          rw [← hac]
          generalize Nat.dist target a = da at *
          generalize Nat.dist target b0 = db0 at *
          generalize Nat.dist target b = db at *
          omega
      · rw [if_neg hb] at h
        have hbc : b0 = c := Option.some.inj h
        have hnb : ¬(Nat.dist target a < Nat.dist target b0 ∨
            (Nat.dist target a = Nat.dist target b0 ∧ a < b0)) := by
          intro hcontra
          apply hb
          rcases hcontra with h1 | ⟨h1, h2⟩
          · simp [isBetter, h1]
          · simp [isBetter, h1, h2]
        refine ⟨by rw [← hbc]; exact List.mem_cons_of_mem a hmem0, fun b hbmem => ?_⟩
        rw [← hbc]
        rcases List.mem_cons.mp hbmem with hba | hbr
        · rw [hba]
          generalize Nat.dist target b0 = db0 at *
          generalize Nat.dist target a = da at *
          omega
        · exact hmin0 b hbr

theorem mem_activeCols {grid : Grid} {r c : Nat} :
    c ∈ activeCols grid r ↔ isActive grid c r = true := by
  constructor
  · intro h
    exact (List.mem_filter.mp h).2
  · intro h
    exact List.mem_filter.mpr ⟨List.mem_range.mpr (isActive_bounds h).2, h⟩

theorem nearestActiveInRow_some {grid : Grid} {r target c : Nat}
    (h : nearestActiveInRow grid r target = some c) :
    isActive grid c r = true ∧
      (isActive grid target r = true → c = target) ∧
      ∀ c', isActive grid c' r = true → Nat.dist target c < Nat.dist target c' ∨
        (Nat.dist target c = Nat.dist target c' ∧ c ≤ c') := by
  rw [nearestActiveInRow] at h
  by_cases ht : isActive grid target r = true
  · rw [if_pos ht] at h
    have : target = c := Option.some.inj h
    subst this
    refine ⟨ht, fun _ => rfl, fun c' hc' => ?_⟩
    rcases Nat.eq_or_lt_of_le (Nat.zero_le (Nat.dist target c')) with h0 | h0
    · have : target = c' := Nat.eq_of_dist_eq_zero h0.symm
      subst this
      exact Or.inr ⟨rfl, Nat.le_refl _⟩
    · have : Nat.dist target target = 0 := Nat.dist_self target
      rw [this]
      exact Or.inl h0
  · rw [if_neg ht] at h
    obtain ⟨hmem, hmin⟩ := chooseNearest_spec h
    refine ⟨mem_activeCols.mp hmem, fun htc => absurd htc ht, fun c' hc' => ?_⟩
    exact hmin c' (mem_activeCols.mpr hc')

theorem nearestActiveInRow_none {grid : Grid} {r target : Nat}
    (h : nearestActiveInRow grid r target = none) :
    ∀ c', isActive grid c' r = false := by
  rw [nearestActiveInRow] at h
  by_cases ht : isActive grid target r = true
  · rw [if_pos ht] at h; exact absurd h (by simp)
  · rw [if_neg ht] at h
    intro c'
    by_contra hc'
    have hc2 : isActive grid c' r = true := by
      cases hval : isActive grid c' r with
      | true => rfl
      | false => exact absurd hval hc'
    have : c' ∈ activeCols grid r := mem_activeCols.mpr hc2
    rw [chooseNearest_none h] at this
    simp at this

theorem upRows_some {grid : Grid} {target : Nat} :
    ∀ {r : Nat} {d : Cell}, upRows grid target r = some d →
      d.row < r ∧ isActive grid d.column d.row = true ∧
        (∀ r', d.row < r' → r' < r → ∀ c', isActive grid c' r' = false) ∧
        (isActive grid target d.row = true → d.column = target) ∧
        (∀ c', isActive grid c' d.row = true →
          Nat.dist target d.column < Nat.dist target c' ∨
            (Nat.dist target d.column = Nat.dist target c' ∧ d.column ≤ c')) := by
  intro r
  induction r with
  | zero => intro d h; simp [upRows] at h
  | succ r ih =>
    intro d h
    rw [upRows] at h
    cases hnear : nearestActiveInRow grid r target with
    | some c =>
      rw [hnear] at h
      obtain ⟨hact, hsame, hmin⟩ := nearestActiveInRow_some hnear
      have hd := (Option.some.inj h).symm
      have hdc : d.column = c := by rw [hd]
      have hdr : d.row = r := by rw [hd]
      refine ⟨by omega, by rw [hdc, hdr]; exact hact, fun r' h1 h2 c' => by omega,
        by rw [hdc, hdr]; exact hsame, ?_⟩
      intro c' hc'
      rw [hdr] at hc'
      rw [hdc]
      exact hmin c' hc'
    | none =>
      rw [hnear] at h
      obtain ⟨hrow, hact, hbetween, hsame, hmin⟩ := ih h
      refine ⟨by omega, hact, fun r' h1 h2 c' => ?_, hsame, hmin⟩
      rcases Nat.lt_or_ge r' r with hlt | hge
      · exact hbetween r' h1 hlt c'
      · have : r' = r := by omega
        subst this
        exact nearestActiveInRow_none hnear c'

theorem upRows_none {grid : Grid} {target : Nat} :
    ∀ {r : Nat}, upRows grid target r = none →
      ∀ r', r' < r → ∀ c', isActive grid c' r' = false := by
  intro r
  induction r with
  | zero => intro _ r' h'; omega
  | succ r ih =>
    intro h r' h' c'
    rw [upRows] at h
    cases hnear : nearestActiveInRow grid r target with
    | some c => rw [hnear] at h; exact absurd h (by simp)
    | none =>
      rw [hnear] at h
      rcases Nat.lt_or_ge r' r with hlt | hge
      · exact ih h r' hlt c'
      · have : r' = r := by omega
        subst this
        exact nearestActiveInRow_none hnear c'

theorem downRows_some {grid : Grid} {target : Nat} :
    ∀ {fuel r : Nat} {d : Cell}, downRows grid target r fuel = some d →
      r ≤ d.row ∧ d.row < r + fuel ∧ isActive grid d.column d.row = true ∧
        (∀ r', r ≤ r' → r' < d.row → ∀ c', isActive grid c' r' = false) ∧
        (isActive grid target d.row = true → d.column = target) ∧
        (∀ c', isActive grid c' d.row = true →
          Nat.dist target d.column < Nat.dist target c' ∨
            (Nat.dist target d.column = Nat.dist target c' ∧ d.column ≤ c')) := by
  intro fuel
  induction fuel with
  | zero => intro r d h; simp [downRows] at h
  | succ fuel ih =>
    intro r d h
    rw [downRows] at h
    cases hnear : nearestActiveInRow grid r target with
    | some c =>
      rw [hnear] at h
      obtain ⟨hact, hsame, hmin⟩ := nearestActiveInRow_some hnear
      have hd := (Option.some.inj h).symm
      have hdc : d.column = c := by rw [hd]
      have hdr : d.row = r := by rw [hd]
      refine ⟨by omega, by omega, by rw [hdc, hdr]; exact hact, fun r' h1 h2 c' => by omega,
        by rw [hdc, hdr]; exact hsame, ?_⟩
      intro c' hc'
      rw [hdr] at hc'
      rw [hdc]
      exact hmin c' hc'
    | none =>
      rw [hnear] at h
      obtain ⟨hge, hlt, hact, hbetween, hsame, hmin⟩ := ih h
      refine ⟨by omega, by omega, hact, fun r' h1 h2 c' => ?_, hsame, hmin⟩
      rcases Nat.lt_or_ge r' (r + 1) with hlt' | hge'
      · have : r' = r := by omega
        subst this
        exact nearestActiveInRow_none hnear c'
      · exact hbetween r' hge' h2 c'

theorem downRows_none {grid : Grid} {target : Nat} :
    ∀ {fuel r : Nat}, downRows grid target r fuel = none →
      ∀ r', r ≤ r' → r' < r + fuel → ∀ c', isActive grid c' r' = false := by
  intro fuel
  induction fuel with
  | zero => intro r h r' h1 h2; omega
  | succ fuel ih =>
    intro r h r' h1 h2 c'
    rw [downRows] at h
    cases hnear : nearestActiveInRow grid r target with
    | some c => rw [hnear] at h; exact absurd h (by simp)
    | none =>
      rw [hnear] at h
      rcases Nat.lt_or_ge r' (r + 1) with hlt | hge
      · have : r' = r := by omega
        subst this
        exact nearestActiveInRow_none hnear c'
      · exact ih h r' hge (by omega) c'

theorem up_some {grid : Grid} {cell d : Cell} (h : up grid cell = some d) :
    d.row < cell.row ∧ isActive grid d.column d.row = true ∧
      (∀ r', d.row < r' → r' < cell.row → ∀ c', isActive grid c' r' = false) ∧
      (isActive grid cell.column d.row = true → d.column = cell.column) ∧
      (∀ c', isActive grid c' d.row = true →
        Nat.dist cell.column d.column < Nat.dist cell.column c' ∨
          (Nat.dist cell.column d.column = Nat.dist cell.column c' ∧ d.column ≤ c')) := by
  rw [up] at h
  exact upRows_some h

theorem up_none {grid : Grid} {cell : Cell} (h : up grid cell = none) :
    ∀ r', r' < cell.row → ∀ c', isActive grid c' r' = false := by
  rw [up] at h
  exact upRows_none h

theorem down_some {grid : Grid} {cell d : Cell} (h : down grid cell = some d) :
    cell.row < d.row ∧ isActive grid d.column d.row = true ∧
      (∀ r', cell.row < r' → r' < d.row → ∀ c', isActive grid c' r' = false) ∧
      (isActive grid cell.column d.row = true → d.column = cell.column) ∧
      (∀ c', isActive grid c' d.row = true →
        Nat.dist cell.column d.column < Nat.dist cell.column c' ∨
          (Nat.dist cell.column d.column = Nat.dist cell.column c' ∧ d.column ≤ c')) := by
  rw [down] at h
  obtain ⟨hge, hlt, hact, hbetween, hsame, hmin⟩ := downRows_some h
  exact ⟨by omega, hact, fun r' h1 h2 c' => hbetween r' (by omega) h2 c', hsame, hmin⟩

theorem down_none {grid : Grid} {cell : Cell} (h : down grid cell = none) :
    ∀ r', cell.row < r' → ∀ c', isActive grid c' r' = false := by
  rw [down] at h
  intro r' h1 c'
  rcases Nat.lt_or_ge r' grid.length with hlt | hge
  · exact downRows_none h r' (by omega) (by omega) c'
  · exact not_active_of_row_ge hge

theorem left_none {grid : Grid} {cell : Cell} (h : left grid cell = none) :
    ∀ e : Cell, isActive grid e.column e.row = true → ¬rmLt e cell := by
  rw [left] at h
  intro e he hlt
  split at h
  · rename_i hcol
    rcases hlt with hl | ⟨heq, hclt⟩
    · have := leftWrap_none h e.row hl e.column
      simp [this] at he
    · omega
  · rename_i c hcol
    cases hscan : scanLeft grid cell.row c with
    | some c0 => rw [hscan] at h; exact absurd h (by simp)
    | none =>
      rw [hscan] at h
      rcases hlt with hl | ⟨heq, hclt⟩
      · have := leftWrap_none h e.row hl e.column
        simp [this] at he
      · have := scanLeft_none hscan e.column (by omega)
        rw [heq] at he
        simp [this] at he

end GridNav

namespace InteractiveChart

theorem getKey_some_hasKey :
    ∀ {l : List (String × JVal)} {k : String} {v : JVal},
      getKey l k = some v → hasKey l k = true := by
  intro l
  induction l with
  | nil => intro k v h; simp [getKey] at h
  | cons p rest ih =>
    intro k v h
    rw [getKey] at h
    rw [hasKey]
    by_cases hp : p.1 = k
    · rw [if_pos hp]
    · rw [if_neg hp] at h
      rw [if_neg hp]
      exact ih h

theorem hasKey_getKey_some :
    ∀ {l : List (String × JVal)} {k : String},
      hasKey l k = true → ∃ v, getKey l k = some v := by
  intro l
  induction l with
  | nil => intro k h; simp [hasKey] at h
  | cons p rest ih =>
    intro k h
    rw [hasKey] at h
    rw [getKey]
    by_cases hp : p.1 = k
    · rw [if_pos hp]
      exact ⟨p.2, rfl⟩
    · rw [if_neg hp] at h
      rw [if_neg hp]
      exact ih h

theorem hasKey_false_getKey_none :
    ∀ {l : List (String × JVal)} {k : String},
      hasKey l k = false → getKey l k = none := by
  intro l
  induction l with
  | nil => intro k _; rfl
  | cons p rest ih =>
    intro k h
    rw [hasKey] at h
    rw [getKey]
    by_cases hp : p.1 = k
    · rw [if_pos hp] at h
      exact absurd h (by simp)
    · rw [if_neg hp] at h
      rw [if_neg hp]
      exact ih h

theorem getKey_setKey_self :
    ∀ (l : List (String × JVal)) (k : String) (v : JVal),
      getKey (setKey l k v) k = some v := by
  intro l
  induction l with
  | nil => intro k v; simp [setKey, getKey]
  | cons p rest ih =>
    intro k v
    rw [setKey]
    by_cases hp : p.1 = k
    · rw [if_pos hp, getKey, if_pos rfl]
    · rw [if_neg hp, getKey, if_neg hp]
      exact ih k v

theorem getKey_setKey_ne :
    ∀ (l : List (String × JVal)) (k k' : String) (v : JVal), k ≠ k' →
      getKey (setKey l k v) k' = getKey l k' := by
  intro l
  induction l with
  | nil => intro k k' v hne; simp [setKey, getKey, hne]
  | cons p rest ih =>
    intro k k' v hne
    rw [setKey]
    by_cases hp : p.1 = k
    · rw [if_pos hp, getKey, getKey, if_neg hne, if_neg (hp ▸ hne)]
    · rw [if_neg hp, getKey, getKey]
      by_cases hp' : p.1 = k'
      · rw [if_pos hp', if_pos hp']
      · rw [if_neg hp', if_neg hp']
        exact ih k k' v hne

theorem hasKey_setKey_self :
    ∀ (l : List (String × JVal)) (k : String) (v : JVal),
      hasKey (setKey l k v) k = true := by
  intro l k v
  obtain ⟨w, hw⟩ : ∃ w, getKey (setKey l k v) k = some w := ⟨v, getKey_setKey_self l k v⟩
  exact getKey_some_hasKey hw

theorem hasKey_setKey_ne :
    ∀ (l : List (String × JVal)) (k k' : String) (v : JVal), k ≠ k' →
      hasKey (setKey l k v) k' = hasKey l k' := by
  intro l
  induction l with
  | nil => intro k k' v hne; simp [setKey, hasKey, fun h => hne h]
  | cons p rest ih =>
    intro k k' v hne
    rw [setKey]
    by_cases hp : p.1 = k
    · rw [if_pos hp, hasKey, hasKey, if_neg hne, if_neg (hp ▸ hne)]
    · rw [if_neg hp, hasKey, hasKey]
      by_cases hp' : p.1 = k'
      · rw [if_pos hp', if_pos hp']
      · rw [if_neg hp', if_neg hp']
        exact ih k k' v hne

theorem hasKey_false_of_not_mem :
    ∀ {l : List (String × JVal)} {k : String},
      k ∉ l.map Prod.fst → hasKey l k = false := by
  intro l
  induction l with
  | nil => intro k _; rfl
  | cons p rest ih =>
    intro k h
    rw [hasKey]
    simp only [List.map_cons, List.mem_cons] at h
    push_neg at h
    rw [if_neg (fun he => h.1 he.symm)]
    exact ih h.2

theorem jsIn_of_hasKey {l : List (String × JVal)} {k : String}
    (h : hasKey l k = true) : jsIn l k = true := by
  simp [jsIn, h]

theorem hasKey_false_of_jsIn_false {l : List (String × JVal)} {k : String}
    (h : jsIn l k = false) : hasKey l k = false := by
  have h2 := h
  simp only [jsIn, Bool.or_eq_false_iff] at h2
  exact h2.1

theorem jsIn_eq_hasKey_of_not_proto {l : List (String × JVal)} {k : String}
    (h : protoKeys.contains k = false) : jsIn l k = hasKey l k := by
  rw [jsIn, h, Bool.or_false]

theorem mergeObjects_frame :
    ∀ {b : List (String × JVal)} {af : List (String × JVal)} {res : JVal},
      (b.map Prod.fst).Nodup →
      mergeObjects false (.obj af) b = .ok res →
      ∃ af', res = .obj af' ∧
        (∀ k va, getKey af k = some va →
          (∀ vb, getKey b k = some vb → vb.isObj = false) →
          getKey af' k = some va) ∧
        (∀ k va bf2, getKey af k = some va → getKey b k = some (.obj bf2) →
          ∃ m, mergeObjects false va bf2 = .ok m ∧ getKey af' k = some m) ∧
        (∀ k, hasKey af' k = true → hasKey af k = true ∨ hasKey b k = true) ∧
        (∀ k, hasKey af k = true → hasKey af' k = true) ∧
        (∀ k, hasKey b k = true → protoKeys.contains k = false →
          hasKey af' k = true) := by
  intro b
  induction b with
  | nil =>
    intro af res hnd h
    rw [mergeObjects] at h
    refine ⟨af, (Except.ok.inj h).symm, fun k va hget _ => hget, ?_,
      fun k hk2 => Or.inl hk2, fun k hk2 => hk2, ?_⟩
    · intro k va bf2 _ hgb
      simp [getKey] at hgb
    · intro k hkb _
      simp [hasKey] at hkb
  | cons p rest ih =>
    intro af res hnd h
    obtain ⟨key, value⟩ := p
    simp only [List.map_cons, List.nodup_cons] at hnd
    obtain ⟨hknotin, hndrest⟩ := hnd
    have hkrest : hasKey rest key = false := hasKey_false_of_not_mem hknotin
    have hgrest : getKey rest key = none := hasKey_false_getKey_none hkrest
    cases value with
    | prim v =>
      rw [mergeObjects] at h
      by_cases hjk : jsIn af key = true
      · simp only [hjk, Bool.not_true, Bool.false_or] at h
        rw [if_neg (by simp)] at h
        obtain ⟨af', hres, hI, hIII, hIV, hV, hVI⟩ := ih hndrest h
        refine ⟨af', hres, ?_, ?_, ?_, ?_, ?_⟩
        · intro k va hget hnonobj
          by_cases hkey : key = k
          · subst hkey
            refine hI key va hget ?_
            intro vb hvb
            rw [hgrest] at hvb
            exact Option.noConfusion hvb
          · refine hI k va hget ?_
            intro vb hvb
            refine hnonobj vb ?_
            rw [getKey, if_neg hkey]
            exact hvb
        · intro k va bf2 hget hgb
          by_cases hkey : key = k
          · subst hkey
            rw [getKey, if_pos rfl] at hgb
            exact JVal.noConfusion (Option.some.inj hgb)
          · rw [getKey, if_neg hkey] at hgb
            exact hIII k va bf2 hget hgb
        · intro k hk2
          rcases hIV k hk2 with h1 | h1
          · exact Or.inl h1
          · right
            rw [hasKey]
            by_cases hkey : key = k
            · rw [if_pos hkey]
            · rw [if_neg hkey]
              exact h1
        · intro k hk2
          exact hV k hk2
        · intro k hkb hnp
          by_cases hkey : key = k
          · subst hkey
            rw [jsIn_eq_hasKey_of_not_proto hnp] at hjk
            exact hV key hjk
          · rw [hasKey, if_neg hkey] at hkb
            exact hVI k hkb hnp
      · rw [Bool.not_eq_true] at hjk
        have hkaf : hasKey af key = false := hasKey_false_of_jsIn_false hjk
        simp only [hjk, Bool.not_false, Bool.false_or] at h
        rw [if_pos (by simp)] at h
        obtain ⟨af', hres, hI, hIII, hIV, hV, hVI⟩ := ih hndrest h
        refine ⟨af', hres, ?_, ?_, ?_, ?_, ?_⟩
        · intro k va hget hnonobj
          have hkey : key ≠ k := by
            intro hcontra
            subst hcontra
            rw [getKey_some_hasKey hget] at hkaf
            exact Bool.noConfusion hkaf
          refine hI k va ?_ ?_
          · rw [getKey_setKey_ne af key k (.prim v) hkey]
            exact hget
          · intro vb hvb
            refine hnonobj vb ?_
            rw [getKey, if_neg hkey]
            exact hvb
        · intro k va bf2 hget hgb
          have hkey : key ≠ k := by
            intro hcontra
            subst hcontra
            rw [getKey_some_hasKey hget] at hkaf
            exact Bool.noConfusion hkaf
          rw [getKey, if_neg hkey] at hgb
          refine hIII k va bf2 ?_ hgb
          rw [getKey_setKey_ne af key k (.prim v) hkey]
          exact hget
        · intro k hk2
          rcases hIV k hk2 with h1 | h1
          · by_cases hkey : key = k
            · right
              rw [hasKey, if_pos hkey]
            · left
              rw [hasKey_setKey_ne af key k (.prim v) hkey] at h1
              exact h1
          · right
            rw [hasKey]
            by_cases hkey : key = k
            · rw [if_pos hkey]
            · rw [if_neg hkey]
              exact h1
        · intro k hk2
          refine hV k ?_
          by_cases hkey : key = k
          · subst hkey
            exact hasKey_setKey_self af key (.prim v)
          · rw [hasKey_setKey_ne af key k (.prim v) hkey]
            exact hk2
        · intro k hkb hnp
          by_cases hkey : key = k
          · subst hkey
            exact hV key (hasKey_setKey_self af key (.prim v))
          · rw [hasKey, if_neg hkey] at hkb
            exact hVI k hkb hnp
    | obj bf =>
      rw [mergeObjects] at h
      by_cases hts : hasKey bf "toString" = true
      · rw [if_pos hts] at h
        exact Except.noConfusion h
      · rw [if_neg hts] at h
        by_cases hjk : jsIn af key = true
        · rw [if_pos hjk] at h
          dsimp only at h
          split at h
          · exact Except.noConfusion h
          · rename_i av heq
            split at h
            · exact Except.noConfusion h
            · rename_i m hm
              obtain ⟨af', hres, hI, hIII, hIV, hV, hVI⟩ := ih hndrest h
              refine ⟨af', hres, ?_, ?_, ?_, ?_, ?_⟩
              · intro k va hget hnonobj
                have hkey : key ≠ k := by
                  intro hcontra
                  subst hcontra
                  have := hnonobj (.obj bf) (by rw [getKey, if_pos rfl])
                  exact Bool.noConfusion this
                refine hI k va ?_ ?_
                · rw [getKey_setKey_ne af key k m hkey]
                  exact hget
                · intro vb hvb
                  refine hnonobj vb ?_
                  rw [getKey, if_neg hkey]
                  exact hvb
              · intro k va bf2 hget hgb
                by_cases hkey : key = k
                · subst hkey
                  rw [getKey, if_pos rfl] at hgb
                  have hbf2 : bf = bf2 := JVal.obj.inj (Option.some.inj hgb)
                  subst hbf2
                  have hav : av = va := by
                    rw [heq] at hget
                    exact Option.some.inj hget
                  refine ⟨m, by rw [← hav]; exact hm, ?_⟩
                  refine hI key m ?_ ?_
                  · exact getKey_setKey_self af key m
                  · intro vb hvb
                    rw [hgrest] at hvb
                    exact Option.noConfusion hvb
                · rw [getKey, if_neg hkey] at hgb
                  refine hIII k va bf2 ?_ hgb
                  rw [getKey_setKey_ne af key k m hkey]
                  exact hget
              · intro k hk2
                rcases hIV k hk2 with h1 | h1
                · by_cases hkey : key = k
                  · right
                    rw [hasKey, if_pos hkey]
                  · left
                    rw [hasKey_setKey_ne af key k m hkey] at h1
                    exact h1
                · right
                  rw [hasKey]
                  by_cases hkey : key = k
                  · rw [if_pos hkey]
                  · rw [if_neg hkey]
                    exact h1
              · intro k hk2
                refine hV k ?_
                by_cases hkey : key = k
                · subst hkey
                  exact hasKey_setKey_self af key m
                · rw [hasKey_setKey_ne af key k m hkey]
                  exact hk2
              · intro k hkb hnp
                by_cases hkey : key = k
                · subst hkey
                  exact hV key (hasKey_setKey_self af key m)
                · rw [hasKey, if_neg hkey] at hkb
                  exact hVI k hkb hnp
        · rw [if_neg hjk] at h
          dsimp only at h
          split at h
          · rename_i heq
            rw [getKey_setKey_self af key (.obj bf)] at heq
            exact Option.noConfusion heq
          · rename_i av heq
            rw [getKey_setKey_self af key (.obj bf)] at heq
            split at h
            · exact Except.noConfusion h
            · rename_i m hm
              rw [Bool.not_eq_true] at hjk
              have hkaf : hasKey af key = false := hasKey_false_of_jsIn_false hjk
              obtain ⟨af', hres, hI, hIII, hIV, hV, hVI⟩ := ih hndrest h
              refine ⟨af', hres, ?_, ?_, ?_, ?_, ?_⟩
              · intro k va hget hnonobj
                have hkey : key ≠ k := by
                  intro hcontra
                  subst hcontra
                  rw [getKey_some_hasKey hget] at hkaf
                  exact Bool.noConfusion hkaf
                refine hI k va ?_ ?_
                · rw [getKey_setKey_ne _ key k m hkey,
                    getKey_setKey_ne af key k (.obj bf) hkey]
                  exact hget
                · intro vb hvb
                  refine hnonobj vb ?_
                  rw [getKey, if_neg hkey]
                  exact hvb
              · intro k va bf2 hget hgb
                have hkey : key ≠ k := by
                  intro hcontra
                  subst hcontra
                  rw [getKey_some_hasKey hget] at hkaf
                  exact Bool.noConfusion hkaf
                rw [getKey, if_neg hkey] at hgb
                refine hIII k va bf2 ?_ hgb
                rw [getKey_setKey_ne _ key k m hkey,
                  getKey_setKey_ne af key k (.obj bf) hkey]
                exact hget
              · intro k hk2
                rcases hIV k hk2 with h1 | h1
                · by_cases hkey : key = k
                  · right
                    rw [hasKey, if_pos hkey]
                  · left
                    rw [hasKey_setKey_ne _ key k m hkey,
                      hasKey_setKey_ne af key k (.obj bf) hkey] at h1
                    exact h1
                · right
                  rw [hasKey]
                  by_cases hkey : key = k
                  · rw [if_pos hkey]
                  · rw [if_neg hkey]
                    exact h1
              · intro k hk2
                refine hV k ?_
                by_cases hkey : key = k
                · subst hkey
                  exact hasKey_setKey_self _ key m
                · rw [hasKey_setKey_ne _ key k m hkey,
                    hasKey_setKey_ne af key k (.obj bf) hkey]
                  exact hk2
              · intro k hkb hnp
                by_cases hkey : key = k
                · subst hkey
                  exact hV key (hasKey_setKey_self _ key m)
                · rw [hasKey, if_neg hkey] at hkb
                  exact hVI k hkb hnp

end InteractiveChart

section Claims

open GridNav InteractiveChart

/-- C1: for every grid and query cell, whenever left, right, up, down,
first, or last returns a cell, that cell is within the grid's bounds and
its activity flag in the grid is 1. -/
theorem c1_result_cells_active_in_bounds :
    ∀ (grid : Grid) (cell d : Cell),
      (left grid cell = some d ∨ right grid cell = some d ∨ up grid cell = some d ∨
        down grid cell = some d ∨ first grid = some d ∨ last grid = some d) →
      isActive grid d.column d.row = true ∧
        d.row < grid.length ∧ d.column < (rowOf grid d.row).length := by
  intro grid cell d hd
  have hact : isActive grid d.column d.row = true := by
    rcases hd with h | h | h | h | h | h
    · exact (left_some h).1
    · exact (right_some h).1
    · exact (up_some h).2.1
    · exact (down_some h).2.1
    · exact (first_some h).1
    · exact (last_some h).1
  obtain ⟨h1, h2⟩ := isActive_bounds hact
  exact ⟨hact, h1, h2⟩

theorem c1_witness :
    isActive exGrid 3 0 = true ∧ 0 < exGrid.length ∧ 3 < (rowOf exGrid 0).length :=
  c1_result_cells_active_in_bounds exGrid ⟨0, 1⟩ ⟨3, 0⟩ (Or.inl (by decide))

/-- C2: every operation is a total function on arbitrary (also jagged)
grids and arbitrary query cells; out-of-range positions are treated as
inactive; on a grid whose cells are all 0 every directional query and
first/last return the absent value. -/
theorem c2_total_out_of_range_inactive_all_zero_absent :
    ∀ grid : Grid,
      (∀ c r, (rowOf grid r).length ≤ c → isActive grid c r = false) ∧
      (∀ c r, grid.length ≤ r → isActive grid c r = false) ∧
      ((∀ row ∈ grid, ∀ v ∈ row, v = 0) →
        (∀ cell, left grid cell = none ∧ right grid cell = none ∧
          up grid cell = none ∧ down grid cell = none) ∧
        first grid = none ∧ last grid = none) := by
  intro grid
  refine ⟨fun c r h => not_active_of_col_ge h, fun c r h => not_active_of_row_ge h, ?_⟩
  intro hz
  have hno : ∀ c r, ¬isActive grid c r = true := by
    intro c r h
    obtain ⟨hrow, hval⟩ := active_mem h
    have h1 := hz _ hrow 1 hval
    exact one_ne_zero h1
  refine ⟨fun cell => ⟨?_, ?_, ?_, ?_⟩, ?_, ?_⟩
  · cases hl : left grid cell with
    | none => rfl
    | some d => exact absurd (left_some hl).1 (hno _ _)
  · cases hr : right grid cell with
    | none => rfl
    | some d => exact absurd (right_some hr).1 (hno _ _)
  · cases hu : up grid cell with
    | none => rfl
    | some d => exact absurd (up_some hu).2.1 (hno _ _)
  · cases hd : down grid cell with
    | none => rfl
    | some d => exact absurd (down_some hd).2.1 (hno _ _)
  · cases hf : first grid with
    | none => rfl
    | some f => exact absurd (first_some hf).1 (hno _ _)
  · cases hl : last grid with
    | none => rfl
    | some l => exact absurd (last_some hl).1 (hno _ _)

theorem c2_witness :
    isActive [[0, 0], [0]] 5 0 = false ∧
      left [[0, 0], [0]] ⟨0, 0⟩ = none ∧ first [[0, 0], [0]] = none := by
  have h := c2_total_out_of_range_inactive_all_zero_absent [[0, 0], [0]]
  have h3 := h.2.2 (by decide)
  exact ⟨h.1 5 0 (by decide), (h3.1 ⟨0, 0⟩).1, h3.2.1⟩

/-- C3: first returns the active cell smallest in row-major order and last
the one largest; both are active; first's row is at most last's row; a
grid with at least one active cell yields results for both, a grid with
none yields absent for both; on the example grid first = [2,0] and
last = [3,3]. -/
theorem c3_first_last_extremal :
    (∀ (grid : Grid) (f : Cell), first grid = some f →
      isActive grid f.column f.row = true ∧
        ∀ e : Cell, isActive grid e.column e.row = true → rmLe f e) ∧
    (∀ (grid : Grid) (l : Cell), last grid = some l →
      isActive grid l.column l.row = true ∧
        ∀ e : Cell, isActive grid e.column e.row = true → rmLe e l) ∧
    (∀ (grid : Grid) (c r : Nat), isActive grid c r = true →
      (first grid).isSome ∧ (last grid).isSome) ∧
    (∀ grid : Grid, (∀ c r, isActive grid c r = false) →
      first grid = none ∧ last grid = none) ∧
    (∀ (grid : Grid) (f l : Cell), first grid = some f → last grid = some l →
      f.row ≤ l.row) ∧
    first exGrid = some ⟨2, 0⟩ ∧ last exGrid = some ⟨3, 3⟩ := by
  refine ⟨fun grid f h => first_some h, fun grid l h => last_some h, ?_, ?_, ?_,
    by decide, by decide⟩
  · intro grid c r h
    constructor
    · cases hf : first grid with
      | none => exact absurd (first_none hf ⟨c, r⟩ h) (fun x => x)
      | some f => rfl
    · cases hl : last grid with
      | none => exact absurd (last_none hl ⟨c, r⟩ h) (fun x => x)
      | some l => rfl
  · intro grid hz
    constructor
    · cases hf : first grid with
      | none => rfl
      | some f =>
        have := (first_some hf).1
        rw [hz f.column f.row] at this
        exact Bool.noConfusion this
    · cases hl : last grid with
      | none => rfl
      | some l =>
        have := (last_some hl).1
        rw [hz l.column l.row] at this
        exact Bool.noConfusion this
  · intro grid f l hf hl
    have h1 := (first_some hf).2 l (last_some hl).1
    rcases h1 with h | ⟨h, _⟩ <;> omega

theorem c3_witness :
    isActive exGrid 2 0 = true ∧ isActive exGrid 3 3 = true ∧ (0 : Nat) ≤ 3 := by
  have h1 := c3_first_last_extremal.1 exGrid ⟨2, 0⟩ (by decide)
  have h2 := c3_first_last_extremal.2.1 exGrid ⟨3, 3⟩ (by decide)
  have h5 := c3_first_last_extremal.2.2.2.2.1 exGrid ⟨2, 0⟩ ⟨3, 3⟩ (by decide) (by decide)
  exact ⟨h1.1, h2.1, h5⟩

/-- C4: up scans the rows above the query cell, nearest row first, taking
the same column when it is active and otherwise the nearest active cell of
that row (smaller column distance first, ties to the lower column index);
it is absent exactly when no active cell lies on any row above; the
spec's worked examples hold. -/
theorem c4_up_characterisation :
    (∀ (grid : Grid) (cell d : Cell), up grid cell = some d →
      d.row < cell.row ∧ isActive grid d.column d.row = true ∧
        (∀ r', d.row < r' → r' < cell.row → ∀ c', isActive grid c' r' = false) ∧
        (isActive grid cell.column d.row = true → d.column = cell.column) ∧
        (∀ c', isActive grid c' d.row = true →
          Nat.dist cell.column d.column < Nat.dist cell.column c' ∨
            (Nat.dist cell.column d.column = Nat.dist cell.column c' ∧
              d.column ≤ c'))) ∧
    (∀ (grid : Grid) (cell : Cell), up grid cell = none ↔
      ∀ r', r' < cell.row → ∀ c', isActive grid c' r' = false) ∧
    up exGrid ⟨0, 1⟩ = some ⟨2, 0⟩ ∧ up exGrid ⟨3, 1⟩ = some ⟨3, 0⟩ ∧
      up exGrid ⟨3, 0⟩ = none := by
  refine ⟨fun grid cell d h => up_some h, fun grid cell => ⟨up_none, ?_⟩,
    by decide, by decide, by decide⟩
  intro hno
  cases hu : up grid cell with
  | none => rfl
  | some d =>
    obtain ⟨h1, h2, _⟩ := up_some hu
    rw [hno d.row h1 d.column] at h2
    exact Bool.noConfusion h2

theorem c4_witness :
    (0 : Nat) < 1 ∧ isActive exGrid 2 0 = true := by
  have h := c4_up_characterisation.1 exGrid ⟨0, 1⟩ ⟨2, 0⟩ (by decide)
  exact ⟨h.1, h.2.1⟩

/-- C5: left scans back along the query row and then wraps to preceding
rows (each searched from its last column): it returns precisely the
row-major predecessor among active cells, and is absent exactly when no
active cell precedes the query cell in row-major order; the spec's worked
examples hold. -/
theorem c5_left_characterisation :
    (∀ (grid : Grid) (cell d : Cell), left grid cell = some d →
      isActive grid d.column d.row = true ∧ rmLt d cell ∧
        ∀ e : Cell, isActive grid e.column e.row = true → rmLt e cell → rmLe e d) ∧
    (∀ (grid : Grid) (cell : Cell), left grid cell = none ↔
      ∀ e : Cell, isActive grid e.column e.row = true → ¬rmLt e cell) ∧
    left exGrid ⟨0, 1⟩ = some ⟨3, 0⟩ ∧ left exGrid ⟨3, 1⟩ = some ⟨1, 1⟩ ∧
      left exGrid ⟨2, 0⟩ = none := by
  refine ⟨fun grid cell d h => left_some h, fun grid cell => ⟨left_none, ?_⟩,
    by decide, by decide, by decide⟩
  intro hno
  cases hl : left grid cell with
  | none => rfl
  | some d =>
    obtain ⟨h1, h2, _⟩ := left_some hl
    exact absurd h2 (hno d h1)

theorem c5_witness :
    isActive exGrid 3 0 = true ∧ rmLt ⟨3, 0⟩ ⟨0, 1⟩ := by
  have h := c5_left_characterisation.1 exGrid ⟨0, 1⟩ ⟨3, 0⟩ (by decide)
  exact ⟨h.1, h.2.1⟩

/-- C6: right is symmetric to left, scanning forward along the query row
from the next column and wrapping to following rows: it returns precisely
the row-major successor among active cells, absent exactly when none
follows; the spec's worked examples hold. -/
theorem c6_right_characterisation :
    (∀ (grid : Grid) (cell d : Cell), right grid cell = some d →
      isActive grid d.column d.row = true ∧ rmLt cell d ∧
        ∀ e : Cell, isActive grid e.column e.row = true → rmLt cell e → rmLe d e) ∧
    (∀ (grid : Grid) (cell : Cell), right grid cell = none ↔
      ∀ e : Cell, isActive grid e.column e.row = true → ¬rmLt cell e) ∧
    right exGrid ⟨0, 1⟩ = some ⟨1, 1⟩ ∧ right exGrid ⟨3, 1⟩ = some ⟨0, 2⟩ ∧
      right exGrid ⟨3, 3⟩ = none := by
  refine ⟨fun grid cell d h => right_some h, fun grid cell => ⟨right_none, ?_⟩,
    by decide, by decide, by decide⟩
  intro hno
  cases hr : right grid cell with
  | none => rfl
  | some d =>
    obtain ⟨h1, h2, _⟩ := right_some hr
    exact absurd h2 (hno d h1)

theorem c6_witness :
    isActive exGrid 1 1 = true ∧ rmLt ⟨0, 1⟩ ⟨1, 1⟩ := by
  have h := c6_right_characterisation.1 exGrid ⟨0, 1⟩ ⟨1, 1⟩ (by decide)
  exact ⟨h.1, h.2.1⟩

/-- C7: down is symmetric to up, scanning the rows below the query cell,
nearest row first, with the same nearest-column tie-break; absent exactly
when no active cell lies on any row below; the spec's worked examples
hold. -/
theorem c7_down_characterisation :
    (∀ (grid : Grid) (cell d : Cell), down grid cell = some d →
      cell.row < d.row ∧ isActive grid d.column d.row = true ∧
        (∀ r', cell.row < r' → r' < d.row → ∀ c', isActive grid c' r' = false) ∧
        (isActive grid cell.column d.row = true → d.column = cell.column) ∧
        (∀ c', isActive grid c' d.row = true →
          Nat.dist cell.column d.column < Nat.dist cell.column c' ∨
            (Nat.dist cell.column d.column = Nat.dist cell.column c' ∧
              d.column ≤ c'))) ∧
    (∀ (grid : Grid) (cell : Cell), down grid cell = none ↔
      ∀ r', cell.row < r' → ∀ c', isActive grid c' r' = false) ∧
    down exGrid ⟨0, 1⟩ = some ⟨0, 2⟩ ∧ down exGrid ⟨1, 1⟩ = some ⟨0, 2⟩ ∧
      down exGrid ⟨1, 3⟩ = none := by
  refine ⟨fun grid cell d h => down_some h, fun grid cell => ⟨down_none, ?_⟩,
    by decide, by decide, by decide⟩
  intro hno
  cases hd : down grid cell with
  | none => rfl
  | some d =>
    obtain ⟨h1, h2, _⟩ := down_some hd
    rw [hno d.row h1 d.column] at h2
    exact Bool.noConfusion h2

theorem c7_witness :
    (1 : Nat) < 2 ∧ isActive exGrid 0 2 = true := by
  have h := c7_down_characterisation.1 exGrid ⟨0, 1⟩ ⟨0, 2⟩ (by decide)
  exact ⟨h.1, h.2.1⟩

/-- C8: every operation is a pure deterministic function of its
arguments: equal (grid, cell) inputs always give equal results for each
direction and for first/last; the operations are pure functions of the
grid value, so no call mutates the input grid or any other state. -/
theorem c8_deterministic :
    ∀ (g1 g2 : Grid) (c1 c2 : Cell), g1 = g2 → c1 = c2 →
      left g1 c1 = left g2 c2 ∧ right g1 c1 = right g2 c2 ∧
        up g1 c1 = up g2 c2 ∧ down g1 c1 = down g2 c2 ∧
        first g1 = first g2 ∧ last g1 = last g2 := by
  intro g1 g2 c1 c2 hg hc
  subst hg
  subst hc
  exact ⟨rfl, rfl, rfl, rfl, rfl, rfl⟩

theorem c8_witness :
    left exGrid ⟨0, 1⟩ = left exGrid ⟨0, 1⟩ ∧ first exGrid = first exGrid := by
  have h := c8_deterministic exGrid exGrid ⟨0, 1⟩ ⟨0, 1⟩ rfl rfl
  exact ⟨h.1, h.2.2.2.2.1⟩

/-- C9 counterexample: on the grid [[1],[0],[1]] with the in-bounds (but
inactive) query cell (column 0, row 1), left yields (0,0) and right from
that result yields (0,2), whose row index 2 strictly exceeds the query
row 1 — so left-then-right can strictly increase the row index. -/
theorem c9_counterexample :
    left [[1], [0], [1]] ⟨0, 1⟩ = some ⟨0, 0⟩ ∧
      right [[1], [0], [1]] ⟨0, 0⟩ = some ⟨0, 2⟩ ∧
      (⟨0, 1⟩ : Cell).row < ([[1], [0], [1]] : Grid).length ∧
      ¬((⟨0, 2⟩ : Cell).row ≤ (⟨0, 1⟩ : Cell).row) := by decide

/-- C9 (amended): for every grid and every ACTIVE query cell, when left
is defined and right of its result is defined, the final row index never
strictly exceeds the query cell's row index. -/
theorem c9_left_right_row_not_increasing :
    ∀ (grid : Grid) (cell m res : Cell),
      isActive grid cell.column cell.row = true →
      left grid cell = some m → right grid m = some res →
      res.row ≤ cell.row := by
  intro grid cell m res hact hl hr
  obtain ⟨hmact, hmlt, hmax⟩ := left_some hl
  obtain ⟨hract, hrlt, hmin⟩ := right_some hr
  have hle : rmLe res cell := hmin cell hact hmlt
  rcases hle with h1 | ⟨h1, h2⟩ <;> omega

theorem c9_witness :
    isActive exGrid 3 0 = true ∧ left exGrid ⟨3, 0⟩ = some ⟨2, 0⟩ ∧
      right exGrid ⟨2, 0⟩ = some ⟨3, 0⟩ ∧ (0 : Nat) ≤ 0 :=
  ⟨by decide, by decide, by decide,
    c9_left_right_row_not_increasing exGrid ⟨3, 0⟩ ⟨2, 0⟩ ⟨3, 0⟩
      (by decide) (by decide) (by decide)⟩

/-- C10: mergeObjects with force left at its default false never changes
a key already present in `a` whose value in `b` is not a plain object —
`a` retains its prior value there, and likewise when `b` lacks the key;
at a key where `a` is present and `b` holds a plain object, the result
is the recursive mergeObjects of the two under the same rule; only keys
missing from `a` are added: every key of the result is a key of `a` or
of `b`, every key of `a` survives, and every key of `b` that is not an
inherited Object.prototype name is present in the result. Stated for
JavaScript objects, whose keys are unique, over merges that stay inside
the modelled value domain. -/
theorem c10_mergeObjects_preserves_existing :
    ∀ (a b af' : List (String × JVal)),
      (b.map Prod.fst).Nodup →
      mergeObjects false (.obj a) b = .ok (.obj af') →
      (∀ k va vb, getKey a k = some va → getKey b k = some vb →
        vb.isObj = false → getKey af' k = some va) ∧
      (∀ k va, getKey a k = some va → getKey b k = none →
        getKey af' k = some va) ∧
      (∀ k va bf, getKey a k = some va → getKey b k = some (.obj bf) →
        ∃ m, mergeObjects false va bf = .ok m ∧ getKey af' k = some m) ∧
      (∀ k, hasKey af' k = true → hasKey a k = true ∨ hasKey b k = true) ∧
      (∀ k, hasKey a k = true → hasKey af' k = true) ∧
      (∀ k, hasKey b k = true → protoKeys.contains k = false →
        hasKey af' k = true) := by
  intro a b af' hnd h
  obtain ⟨af2, hres, hI, hIII, hIV, hV, hVI⟩ := mergeObjects_frame hnd h
  have haf : af' = af2 := JVal.obj.inj hres
  subst haf
  refine ⟨?_, ?_, hIII, hIV, hV, hVI⟩
  · intro k va vb hga hgb hnb
    refine hI k va hga ?_
    intro vb2 hvb2
    rw [hgb] at hvb2
    rw [← Option.some.inj hvb2]
    exact hnb
  · intro k va hga hgb
    refine hI k va hga ?_
    intro vb2 hvb2
    rw [hgb] at hvb2
    exact Option.noConfusion hvb2

theorem c10_witness :
    getKey [("x", JVal.prim 1),
        ("o", JVal.obj [("a", JVal.prim 2), ("b", JVal.prim 4)]),
        ("y", JVal.prim 3)] "x" = some (JVal.prim 1) ∧
      mergeObjects false (JVal.obj [("a", JVal.prim 2)])
          [("a", JVal.prim 7), ("b", JVal.prim 4)]
        = .ok (JVal.obj [("a", JVal.prim 2), ("b", JVal.prim 4)]) ∧
      getKey [("x", JVal.prim 1),
        ("o", JVal.obj [("a", JVal.prim 2), ("b", JVal.prim 4)]),
        ("y", JVal.prim 3)] "o"
        = some (JVal.obj [("a", JVal.prim 2), ("b", JVal.prim 4)]) ∧
      hasKey [("x", JVal.prim 1),
        ("o", JVal.obj [("a", JVal.prim 2), ("b", JVal.prim 4)]),
        ("y", JVal.prim 3)] "y" = true := by
  have h := c10_mergeObjects_preserves_existing
    [("x", JVal.prim 1), ("o", JVal.obj [("a", JVal.prim 2)])]
    [("x", JVal.prim 9), ("y", JVal.prim 3),
      ("o", JVal.obj [("a", JVal.prim 7), ("b", JVal.prim 4)])]
    [("x", JVal.prim 1), ("o", JVal.obj [("a", JVal.prim 2), ("b", JVal.prim 4)]),
      ("y", JVal.prim 3)]
    (by decide) (by rfl)
  obtain ⟨m, hm, hgm⟩ := h.2.2.1 "o" (JVal.obj [("a", JVal.prim 2)])
    [("a", JVal.prim 7), ("b", JVal.prim 4)] rfl rfl
  have hmv : m = JVal.obj [("a", JVal.prim 2), ("b", JVal.prim 4)] := by
    have hcomp : mergeObjects false (JVal.obj [("a", JVal.prim 2)])
        [("a", JVal.prim 7), ("b", JVal.prim 4)]
        = .ok (JVal.obj [("a", JVal.prim 2), ("b", JVal.prim 4)]) := rfl
    rw [hcomp] at hm
    exact (Except.ok.inj hm).symm
  rw [hmv] at hm hgm
  exact ⟨h.1 "x" (JVal.prim 1) (JVal.prim 9) rfl rfl rfl, hm, hgm,
    h.2.2.2.2.2 "y" rfl rfl⟩

end Claims
